import Mathlib

/-!
Verification of the pathfinding core of the elementals repository.

The development shallowly embeds, in Lean 4, the parts of the source that
the checked properties are about:

- src/systems/world_gen.rs : the TerrainMap grid (world/tile coordinate
  transforms, tile passability, size-aware clearance checks, segment
  sampling, and the guard structure of size-aware path search);
- src/systems/pathfinding_cache.rs : the PathfindingCache (radius
  quantization, the path and passability caches, the spatial index and
  terrain-version based invalidation);
- src/systems/async_pathfinding.rs : the per-tick cached scheduling pass
  (spawn_cached_pathfinding_tasks).

Modelling conventions:
- f32 values are modelled as rationals.  The source compares a Euclidean
  distance, sqrt d2, against a bound b; this is embedded without leaving
  the rationals as the equivalent test (0 < b and d2 < b^2), and the
  bridge to Real.sqrt is proved (sqrtLt_eq_true_iff).
- Rust HashMap and HashSet are modelled as association lists (insert
  replaces, lookup finds the first matching key) and duplicate-free lists.
- Instant::now timestamps are modelled by threading an explicit natural
  number clock argument through the cache operations.
- The floating point peculiarities of quantize_size (NaN, infinities,
  the saturating as-u8 cast) are modelled by an explicit F32 value type
  with the Rust semantics of the operations the function performs.
-/

/-- Integer range [lo, hi], both ends included, mirroring a Rust
for dx in lo..=hi loop. -/
def intRange (lo hi : ℤ) : List ℤ :=
  (List.range (hi + 1 - lo).toNat).map fun i => lo + (i : ℕ)

/-- Rational embedding of the f32 comparison sqrt d2 < b often used by the
source (d2 is a sum of squares, hence nonnegative): equivalent to testing
0 < b and d2 < b squared, which stays inside the rationals. -/
def sqrtLt (d2 b : ℚ) : Bool :=
  decide (0 < b ∧ d2 < b ^ 2)

/-- Ceiling of the square root of a rational: the least natural n with
x <= n^2 (0 for nonpositive x).  This is the value of
(distance / interval).ceil() once the division is pushed under the root. -/
def ceilSqrt (x : ℚ) : ℕ :=
  if hx : 0 < x then
    Nat.find (⟨(⌈x⌉).toNat, by
      have h0 : (0 : ℤ) < ⌈x⌉ := Int.ceil_pos.mpr hx
      have h1 : ((⌈x⌉.toNat : ℕ) : ℚ) = ((⌈x⌉ : ℤ) : ℚ) := by
        exact_mod_cast congrArg (fun z : ℤ => (z : ℚ)) (Int.toNat_of_nonneg h0.le)
      have h2 : x ≤ ((⌈x⌉ : ℤ) : ℚ) := Int.le_ceil x
      have h3 : (1 : ℚ) ≤ ((⌈x⌉ : ℤ) : ℚ) := by exact_mod_cast h0
      rw [h1]
      nlinarith⟩ : ∃ n : ℕ, x ≤ (n : ℚ) ^ 2)
  else 0

/-- Rust f32::round: round half away from zero. -/
def rustRound (q : ℚ) : ℤ :=
  if 0 ≤ q then ⌊q + 1 / 2⌋ else -⌊-q + 1 / 2⌋

/-- The f32 values quantize_size can encounter: NaN, the two infinities,
and finite values (modelled as rationals; a finite multiplication that
would overflow to infinity lands in the same final bucket 255, since the
min with 255.0 caps it either way). -/
inductive F32 where
  | nan : F32
  | inf : F32
  | ninf : F32
  | val : ℚ → F32
deriving DecidableEq

/-- Multiplication by 8.0 (size * 8.0 in quantize_size). -/
def F32.mul8 : F32 → F32
  | .nan => .nan
  | .inf => .inf
  | .ninf => .ninf
  | .val q => .val (q * 8)

/-- f32::round: half away from zero; NaN and infinities map to themselves. -/
def F32.roundAway : F32 → F32
  | .nan => .nan
  | .inf => .inf
  | .ninf => .ninf
  | .val q => .val ((rustRound q : ℤ) : ℚ)

/-- f32::min: if one argument is NaN the other is returned. -/
def F32.minNum : F32 → F32 → F32
  | .nan, y => y
  | x, .nan => x
  | .inf, y => y
  | x, .inf => x
  | .ninf, _ => .ninf
  | _, .ninf => .ninf
  | .val a, .val b => .val (min a b)

/-- Rust as-u8 cast on f32: truncate toward zero, saturate at 0 and 255,
NaN casts to 0. -/
def F32.castU8 : F32 → ℕ
  | .nan => 0
  | .inf => 255
  | .ninf => 0
  | .val q => if q < 0 then 0 else min (⌊q⌋.toNat) 255

/-- PathfindingCache::quantize_size on a general f32 input:
(size * 8.0).round().min(255.0) as u8. -/
def quantizeSizeF (size : F32) : ℕ :=
  F32.castU8 (F32.minNum (F32.roundAway (F32.mul8 size)) (F32.val 255))

/-- PathfindingCache::quantize_size on an ordinary (finite) size. -/
def quantizeSize (size : ℚ) : ℕ :=
  quantizeSizeF (F32.val size)

/-- Association list lookup (the HashMap get): value of the first pair whose
key matches. -/
def listLookup {α β : Type} [DecidableEq α] (l : List (α × β)) (k : α) : Option β :=
  (l.find? fun p => decide (p.1 = k)).map Prod.snd

/-- Association list erase (the HashMap remove): drop every pair with the key. -/
def listErase {α β : Type} [DecidableEq α] (l : List (α × β)) (k : α) : List (α × β) :=
  l.filter fun p => !decide (p.1 = k)

/-- Association list insert (the HashMap insert): replaces any existing
binding of the key. -/
def listInsert {α β : Type} [DecidableEq α] (l : List (α × β)) (k : α) (v : β) :
    List (α × β) :=
  (k, v) :: listErase l k

/-- Duplicate-free insertion (the HashSet insert). -/
def setInsert {α : Type} [DecidableEq α] (l : List α) (a : α) : List α :=
  if a ∈ l then l else a :: l

/-- GroundConfigs, reduced to the interface the pathfinding core uses:
GroundConfigs::is_passable, a total map from terrain-class index to a
passability flag (false for unknown classes in the source). -/
structure GroundConfigs where
  isPassable : ℕ → Bool

/-- TerrainMap: grid dimensions, cell size and the terrain classes,
stored column-major (tiles[x][y]) as in the source. -/
structure TerrainMap where
  width : ℕ
  height : ℕ
  tileSize : ℚ
  tiles : List (List ℕ)

/-- TerrainMap::world_to_tile_coords: shift by half the grid extent, divide
by the cell size, floor, and bounds-check. -/
def TerrainMap.worldToTileCoords (m : TerrainMap) (worldX worldY : ℚ) :
    Option (ℤ × ℤ) :=
  let halfWidth := (m.width : ℚ) * m.tileSize / 2
  let halfHeight := (m.height : ℚ) * m.tileSize / 2
  let tileX : ℤ := ⌊(worldX + halfWidth) / m.tileSize⌋
  let tileY : ℤ := ⌊(worldY + halfHeight) / m.tileSize⌋
  if 0 ≤ tileX ∧ tileX < (m.width : ℤ) ∧ 0 ≤ tileY ∧ tileY < (m.height : ℤ) then
    some (tileX, tileY)
  else
    none

/-- TerrainMap::tile_to_world_coords: the world position of the center of a
cell. -/
def TerrainMap.tileToWorldCoords (m : TerrainMap) (tileX tileY : ℤ) : ℚ × ℚ :=
  let halfWidth := (m.width : ℚ) * m.tileSize / 2
  let halfHeight := (m.height : ℚ) * m.tileSize / 2
  ((tileX : ℚ) * m.tileSize - halfWidth + m.tileSize / 2,
   (tileY : ℚ) * m.tileSize - halfHeight + m.tileSize / 2)

/-- TerrainMap::is_tile_passable: bounds check, then the ground-config
passability of the stored terrain class; out of bounds is impassable. -/
def TerrainMap.isTilePassable (m : TerrainMap) (gc : GroundConfigs)
    (tileX tileY : ℤ) : Bool :=
  if 0 ≤ tileX ∧ tileX < (m.width : ℤ) ∧ 0 ≤ tileY ∧ tileY < (m.height : ℤ) then
    gc.isPassable ((m.tiles.getD tileX.toNat []).getD tileY.toNat 0)
  else
    false

/-- The per-cell overlap test inside is_position_passable_for_size: the
query point is clamped onto the square footprint of the (impassable) cell,
and the cell blocks the agent when the distance from the query point to
that closest point is below radius minus the 25 percent tolerance. -/
def TerrainMap.cellBlocksAt (m : TerrainMap) (worldX worldY size : ℚ)
    (tileX tileY : ℤ) : Bool :=
  let halfTile := m.tileSize / 2
  let radius := size * halfTile
  let tw := m.tileToWorldCoords tileX tileY
  let closestX := min (max worldX (tw.1 - halfTile)) (tw.1 + halfTile)
  let closestY := min (max worldY (tw.2 - halfTile)) (tw.2 + halfTile)
  let d2 := (closestX - worldX) ^ 2 + (closestY - worldY) ^ 2
  sqrtLt d2 (radius - m.tileSize * (1 / 4))

/-- TerrainMap::is_position_passable_for_size: the occupied cell must be
passable, and no impassable cell within ceil(radius / tile_size) cells may
pass the overlap test. -/
def TerrainMap.isPositionPassableForSize (m : TerrainMap)
    (worldX worldY size : ℚ) (gc : GroundConfigs) : Bool :=
  match m.worldToTileCoords worldX worldY with
  | none => false
  | some centerTile =>
    if !m.isTilePassable gc centerTile.1 centerTile.2 then false
    else
      let halfTile := m.tileSize / 2
      let radius := size * halfTile
      let radiusInTiles : ℤ := ⌈radius / m.tileSize⌉
      (intRange (-radiusInTiles) radiusInTiles).all fun dx =>
        (intRange (-radiusInTiles) radiusInTiles).all fun dy =>
          let tileX := centerTile.1 + dx
          let tileY := centerTile.2 + dy
          if m.isTilePassable gc tileX tileY then true
          else !m.cellBlocksAt worldX worldY size tileX tileY

/-- The sample_interval local of is_path_segment_clear_with_cache: a
quarter-tile minimum for small agents, otherwise half the agent radius. -/
def TerrainMap.sampleInterval (m : TerrainMap) (size : ℚ) : ℚ :=
  let halfTile := m.tileSize / 2
  let radius := size * halfTile
  let minSampleInterval := m.tileSize * (1 / 4)
  if radius < minSampleInterval then minSampleInterval else radius * (1 / 2)

/-- The num_samples local of is_path_segment_clear_with_cache, given the
squared segment length d2: ceil(distance / sample_interval), capped at 50,
and forced to at least 1 so the destination is always checked.  The
division is pushed under the square root, keeping the computation
rational; the guard on the interval sign never fires when the tile size is
positive (the interval is then positive). -/
def TerrainMap.numSamplesFor (m : TerrainMap) (d2 size : ℚ) : ℕ :=
  let si := m.sampleInterval size
  let n := if 0 < si then ceilSqrt (d2 / si ^ 2) else 0
  let n := min n 50
  if n = 0 then 1 else n

/-- The points along a segment that is_path_segment_clear_with_cache
checks: just the destination for a very short segment (under a tenth of a
tile), otherwise the num_samples + 1 evenly spaced points from the source
(t = 0) to the destination (t = 1). -/
def TerrainMap.segmentSamples (m : TerrainMap) (fromW toW : ℚ × ℚ)
    (size : ℚ) : List (ℚ × ℚ) :=
  let dx := toW.1 - fromW.1
  let dy := toW.2 - fromW.2
  let d2 := dx ^ 2 + dy ^ 2
  if sqrtLt d2 (m.tileSize * (1 / 10)) then [toW]
  else
    let n := m.numSamplesFor d2 size
    (List.range (n + 1)).map fun i : ℕ =>
      let t : ℚ := if n = 0 then 1 else ((i : ℕ) : ℚ) / ((n : ℕ) : ℚ)
      (fromW.1 + dx * t, fromW.2 + dy * t)

/-- TerrainMap::is_path_segment_clear (the cache argument of the source is
None here, as in the is_path_segment_clear wrapper): every sampled point
must pass the per-point clearance check. -/
def TerrainMap.isPathSegmentClear (m : TerrainMap) (fromW toW : ℚ × ℚ)
    (size : ℚ) (gc : GroundConfigs) : Bool :=
  (m.segmentSamples fromW toW size).all fun p =>
    m.isPositionPassableForSize p.1 p.2 size gc

/-- TerrainMap::find_path_for_size_internal with the cache argument None
(the find_path_for_size entry point used by the async systems).  The A*
search body is abstracted as the astarFn argument: the claims checked here
concern only the guard structure before the search, and are proved for
every astarFn, which is exactly the sense in which the search is not run.
astarFn returns the cell path together with its cost, as the pathfinding
crate astar does. -/
def TerrainMap.findPathForSizeInternal (m : TerrainMap)
    (astarFn : ℤ × ℤ → ℤ × ℤ → Option (List (ℤ × ℤ) × ℕ))
    (startW goalW : ℚ × ℚ) (size : ℚ) (gc : GroundConfigs) :
    Option (List (ℚ × ℚ)) :=
  match m.worldToTileCoords startW.1 startW.2 with
  | none => none
  | some startTile =>
    match m.worldToTileCoords goalW.1 goalW.2 with
    | none => none
    | some goalTile =>
      if !m.isPositionPassableForSize startW.1 startW.2 size gc then none
      else if !m.isPositionPassableForSize goalW.1 goalW.2 size gc then none
      else
        match astarFn startTile goalTile with
        | some (path, _cost) =>
          some (path.map fun t => m.tileToWorldCoords t.1 t.2)
        | none => none

/-- PathCacheKey: start cell, goal cell, quantized size tier. -/
structure PathCacheKey where
  startTile : ℤ × ℤ
  goalTile : ℤ × ℤ
  sizeTier : ℕ
deriving DecidableEq

/-- PassabilityCacheKey: cell plus quantized size tier. -/
structure PassabilityCacheKey where
  tileX : ℤ
  tileY : ℤ
  sizeTier : ℕ
deriving DecidableEq

/-- CachedPathResult: the optional path, the terrain version at computation
time, the last access instant, and the footprint cells recorded for
invalidation. -/
structure CachedPathResult where
  path : Option (List (ℚ × ℚ))
  terrainVersion : ℕ
  lastAccessed : ℕ
  affectedTiles : List (ℕ × ℕ)
deriving DecidableEq

/-- CachedPassability: flag, terrain version and last access instant. -/
structure CachedPassability where
  isPassable : Bool
  terrainVersion : ℕ
  lastAccessed : ℕ
deriving DecidableEq

/-- CacheStats: the performance counters of the cache. -/
structure CacheStats where
  pathCacheHits : ℕ
  pathCacheMisses : ℕ
  passabilityCacheHits : ℕ
  passabilityCacheMisses : ℕ
  terrainInvalidations : ℕ
  cacheSize : ℕ
deriving DecidableEq

/-- PathfindingCache: the two caches, the terrain version, the spatial
index from cells to the path-cache keys whose footprint touches them, and
the counters. -/
structure PathfindingCache where
  pathCache : List (PathCacheKey × CachedPathResult)
  passabilityCache : List (PassabilityCacheKey × CachedPassability)
  terrainVersion : ℕ
  spatialIndex : List ((ℕ × ℕ) × List PathCacheKey)
  stats : CacheStats
deriving DecidableEq

/-- PathfindingCache::new. -/
def PathfindingCache.new : PathfindingCache :=
  { pathCache := []
    passabilityCache := []
    terrainVersion := 1
    spatialIndex := []
    stats := ⟨0, 0, 0, 0, 0, 0⟩ }

/-- TerrainChanges: the ordered batch of (x, y, new terrain class) edits. -/
structure TerrainChanges where
  changedTiles : List (ℕ × ℕ × ℕ)

/-- One step of cleanup_spatial_index: remove the key from the list stored
at one cell, dropping the cell entirely when its list becomes empty. -/
def removeKeyFromIndexAt (idx : List ((ℕ × ℕ) × List PathCacheKey))
    (key : PathCacheKey) (tile : ℕ × ℕ) : List ((ℕ × ℕ) × List PathCacheKey) :=
  match listLookup idx tile with
  | none => idx
  | some keys =>
    let keys2 := keys.filter fun k => !decide (k = key)
    if keys2.isEmpty then listErase idx tile else listInsert idx tile keys2

/-- PathfindingCache::cleanup_spatial_index over the recorded footprint. -/
def cleanupSpatialIndex (idx : List ((ℕ × ℕ) × List PathCacheKey))
    (key : PathCacheKey) (tiles : List (ℕ × ℕ)) :
    List ((ℕ × ℕ) × List PathCacheKey) :=
  tiles.foldl (fun acc t => removeKeyFromIndexAt acc key t) idx

/-- PathfindingCache::get_path.  now is the Instant::now of this call.
Returns the result (Some cached-path on a version-valid hit, None on a
miss) together with the updated cache: a hit bumps the hit counter and
refreshes the last access time, a stale entry is removed together with its
spatial-index references, and every non-hit bumps the miss counter. -/
def PathfindingCache.getPath (c : PathfindingCache) (start goal : ℤ × ℤ)
    (size : ℚ) (now : ℕ) : Option (Option (List (ℚ × ℚ))) × PathfindingCache :=
  let key : PathCacheKey := ⟨start, goal, quantizeSize size⟩
  match listLookup c.pathCache key with
  | some cached =>
    if cached.terrainVersion = c.terrainVersion then
      (some cached.path,
       { c with
         pathCache := listInsert c.pathCache key { cached with lastAccessed := now }
         stats := { c.stats with pathCacheHits := c.stats.pathCacheHits + 1 } })
    else
      (none,
       { c with
         pathCache := listErase c.pathCache key
         spatialIndex := cleanupSpatialIndex c.spatialIndex key cached.affectedTiles
         stats := { c.stats with pathCacheMisses := c.stats.pathCacheMisses + 1 } })
  | none =>
    (none,
     { c with stats := { c.stats with pathCacheMisses := c.stats.pathCacheMisses + 1 } })

/-- PathfindingCache::get_affected_tiles: every cell within
ceil((size * tile_size / 2) / tile_size) cells of a cell some waypoint
falls in, kept to nonnegative coordinates, collected as a set. -/
def TerrainMap.getAffectedTiles (m : TerrainMap) (path : List (ℚ × ℚ))
    (size : ℚ) : List (ℕ × ℕ) :=
  let radiusInTiles : ℤ := ⌈(size * m.tileSize / 2) / m.tileSize⌉
  path.foldl
    (fun acc point =>
      match m.worldToTileCoords point.1 point.2 with
      | none => acc
      | some center =>
        (intRange (-radiusInTiles) radiusInTiles).foldl
          (fun acc2 dx =>
            (intRange (-radiusInTiles) radiusInTiles).foldl
              (fun acc3 dy =>
                let tileX := center.1 + dx
                let tileY := center.2 + dy
                if 0 ≤ tileX ∧ 0 ≤ tileY then
                  setInsert acc3 (tileX.toNat, tileY.toNat)
                else acc3)
              acc2)
          acc)
    []

/-- PathfindingCache::cache_path: compute the footprint (empty for a cached
no-path result), register the key under every footprint cell in the
spatial index, store the entry stamped with the current terrain version,
and refresh the cache-size statistic. -/
def PathfindingCache.cachePath (c : PathfindingCache) (start goal : ℤ × ℤ)
    (size : ℚ) (path : Option (List (ℚ × ℚ))) (m : TerrainMap) (now : ℕ) :
    PathfindingCache :=
  let key : PathCacheKey := ⟨start, goal, quantizeSize size⟩
  let affectedTiles :=
    match path with
    | some pathPoints => m.getAffectedTiles pathPoints size
    | none => []
  let idx2 := affectedTiles.foldl
    (fun acc tile => listInsert acc tile ((listLookup acc tile).getD [] ++ [key]))
    c.spatialIndex
  let cached : CachedPathResult :=
    { path := path
      terrainVersion := c.terrainVersion
      lastAccessed := now
      affectedTiles := affectedTiles }
  let pathCache2 := listInsert c.pathCache key cached
  { c with
    pathCache := pathCache2
    spatialIndex := idx2
    stats := { c.stats with
               cacheSize := pathCache2.length + c.passabilityCache.length } }

/-- PathfindingCache::get_passability: same versioning discipline as
get_path, without footprint tracking. -/
def PathfindingCache.getPassability (c : PathfindingCache) (tileX tileY : ℤ)
    (size : ℚ) (now : ℕ) : Option Bool × PathfindingCache :=
  let key : PassabilityCacheKey := ⟨tileX, tileY, quantizeSize size⟩
  match listLookup c.passabilityCache key with
  | some cached =>
    if cached.terrainVersion = c.terrainVersion then
      (some cached.isPassable,
       { c with
         passabilityCache :=
           listInsert c.passabilityCache key { cached with lastAccessed := now }
         stats := { c.stats with
                    passabilityCacheHits := c.stats.passabilityCacheHits + 1 } })
    else
      (none,
       { c with
         passabilityCache := listErase c.passabilityCache key
         stats := { c.stats with
                    passabilityCacheMisses := c.stats.passabilityCacheMisses + 1 } })
  | none =>
    (none,
     { c with stats := { c.stats with
                         passabilityCacheMisses := c.stats.passabilityCacheMisses + 1 } })

/-- PathfindingCache::invalidate_passability_around_tile: retain only the
passability entries farther than 3 cells (in either axis) from the changed
cell. -/
def purgePassabilityAround (pc : List (PassabilityCacheKey × CachedPassability))
    (centerX centerY : ℤ) : List (PassabilityCacheKey × CachedPassability) :=
  pc.filter fun p =>
    decide (3 < |p.1.tileX - centerX|) || decide (3 < |p.1.tileY - centerY|)

/-- The keys_to_remove set of invalidate_from_terrain_changes: all spatial
index entries registered at any changed cell. -/
def collectKeysToRemove (idx : List ((ℕ × ℕ) × List PathCacheKey))
    (changes : List (ℕ × ℕ × ℕ)) : List PathCacheKey :=
  changes.foldl
    (fun ks ch =>
      ((listLookup idx (ch.1, ch.2.1)).getD []).foldl setInsert ks)
    []

/-- The removal loop of invalidate_from_terrain_changes: drop each
collected key from the path cache and scrub it from the spatial index. -/
def removePathKeys
    (st : List (PathCacheKey × CachedPathResult) × List ((ℕ × ℕ) × List PathCacheKey))
    (ks : List PathCacheKey) :
    List (PathCacheKey × CachedPathResult) × List ((ℕ × ℕ) × List PathCacheKey) :=
  ks.foldl
    (fun st k =>
      match listLookup st.1 k with
      | some cached => (listErase st.1 k, cleanupSpatialIndex st.2 k cached.affectedTiles)
      | none => st)
    st

/-- PathfindingCache::invalidate_from_terrain_changes: no-op on an empty
batch; otherwise bump the terrain version once, purge passability entries
within 3 cells of every changed cell, and remove every path entry the
spatial index registers at a changed cell. -/
def PathfindingCache.invalidateFromTerrainChanges (c : PathfindingCache)
    (tc : TerrainChanges) : PathfindingCache :=
  if tc.changedTiles.isEmpty then c
  else
    let passability2 := tc.changedTiles.foldl
      (fun pc ch => purgePassabilityAround pc (ch.1 : ℤ) (ch.2.1 : ℤ))
      c.passabilityCache
    let keysToRemove := collectKeysToRemove c.spatialIndex tc.changedTiles
    let st := removePathKeys (c.pathCache, c.spatialIndex) keysToRemove
    { pathCache := st.1
      passabilityCache := passability2
      terrainVersion := c.terrainVersion + 1
      spatialIndex := st.2
      stats := { c.stats with
                 terrainInvalidations := c.stats.terrainInvalidations + 1
                 cacheSize := st.1.length + passability2.length } }

/-- PathfindingPriority. -/
inductive PathfindingPriority where
  | low : PathfindingPriority
  | normal : PathfindingPriority
  | high : PathfindingPriority
  | critical : PathfindingPriority
deriving DecidableEq

/-- The discriminant values of the priority enum (Low 0 .. Critical 3),
which the derived Ord of the source compares. -/
def PathfindingPriority.rank : PathfindingPriority → ℕ
  | .low => 0
  | .normal => 1
  | .high => 2
  | .critical => 3

/-- PathfindingRequest (the request id field is assigned by the system). -/
structure PathfindingRequest where
  start : ℚ × ℚ
  goal : ℚ × ℚ
  size : ℚ
  priority : PathfindingPriority
  requestId : ℕ
deriving DecidableEq

/-- The two externally visible effects a request can receive inside one
spawn_cached_pathfinding_tasks pass: an immediate resolution from the
cache (with the cached optional path), or a dispatch of an async
pathfinding task to the worker pool. -/
inductive SchedAction where
  | resolveHit : ℕ → Option (List (ℚ × ℚ)) → SchedAction
  | dispatch : ℕ → ℕ → SchedAction
deriving DecidableEq

/-- The descending-priority comparison the scheduler sorts by:
requests.sort_by(b.priority.cmp(a.priority)). -/
def reqGE (a b : ℕ × PathfindingRequest) : Prop :=
  b.2.priority.rank ≤ a.2.priority.rank

instance : DecidableRel reqGE :=
  fun a b => inferInstanceAs (Decidable (b.2.priority.rank ≤ a.2.priority.rank))

instance : IsTotal (ℕ × PathfindingRequest) reqGE :=
  ⟨fun a b => (Nat.le_total b.2.priority.rank a.2.priority.rank).elim Or.inl Or.inr⟩

instance : IsTrans (ℕ × PathfindingRequest) reqGE :=
  ⟨fun _ _ _ h1 h2 => Nat.le_trans h2 h1⟩

/-- PathfindingRequestCounter::next_id: returns the id and the wrapped
successor (u64 wrapping_add). -/
def nextRequestId (counter : ℕ) : ℕ × ℕ :=
  (counter, (counter + 1) % 2 ^ 64)

/-- The body of the request loop of spawn_cached_pathfinding_tasks, acting
on the running state (emitted action trace, cache, request counter).
Every request draws a fresh id from the counter.  When both endpoints map
to cells and the cache has a version-valid entry, the request resolves
immediately (a cached None path also resolves, by just dropping the
request); otherwise an async task is dispatched.  now is the tick's
Instant::now. -/
def spawnStep (m : TerrainMap) (now : ℕ)
    (st : List ((ℕ × PathfindingRequest) × SchedAction) × PathfindingCache × ℕ)
    (er : ℕ × PathfindingRequest) :
    List ((ℕ × PathfindingRequest) × SchedAction) × PathfindingCache × ℕ :=
  let acts := st.1
  let cache := st.2.1
  let counter := st.2.2
  let rid := (nextRequestId counter).1
  let counter2 := (nextRequestId counter).2
  match m.worldToTileCoords er.2.start.1 er.2.start.2,
        m.worldToTileCoords er.2.goal.1 er.2.goal.2 with
  | some startTile, some goalTile =>
    match cache.getPath startTile goalTile er.2.size now with
    | (some cachedPath, cache2) =>
      (acts ++ [(er, SchedAction.resolveHit er.1 cachedPath)], cache2, counter2)
    | (none, cache2) =>
      (acts ++ [(er, SchedAction.dispatch er.1 rid)], cache2, counter2)
  | _, _ =>
    (acts ++ [(er, SchedAction.dispatch er.1 rid)], cache, counter2)

/-- One tick of spawn_cached_pathfinding_tasks: the pending requests
(entity id paired with the request) are sorted by descending priority
(Rust sort_by is stable, as is insertion sort) and processed in that
order by spawnStep.  Returns the per-request action trace in emission
order, the final cache, and the final counter. -/
def spawnCachedPathfindingTasks (m : TerrainMap) (cache : PathfindingCache)
    (counter : ℕ) (now : ℕ) (reqs : List (ℕ × PathfindingRequest)) :
    List ((ℕ × PathfindingRequest) × SchedAction) × PathfindingCache × ℕ :=
  (List.insertionSort reqGE reqs).foldl (spawnStep m now) ([], cache, counter)

/-- A concrete 3 by 3 map with unit tiles, used by the witnesses. -/
def mapW : TerrainMap :=
  { width := 3, height := 3, tileSize := 1
    tiles := [[0, 0, 0], [0, 0, 0], [0, 0, 0]] }

/-- A ground config where terrain class 0 is passable and class 1 is not. -/
def gcW : GroundConfigs :=
  ⟨fun t => decide (t = 0)⟩

/-- The cache used by the C9 counterexample: the key of the low-priority
request (cells (1, 1) to (1, 1), size 1) holds a cached empty path stamped
with the current terrain version. -/
def cacheW9 : PathfindingCache :=
  { pathCache := [(⟨(1, 1), (1, 1), quantizeSize 1⟩, ⟨some [], 1, 0, []⟩)]
    passabilityCache := []
    terrainVersion := 1
    spatialIndex := []
    stats := ⟨0, 0, 0, 0, 0, 0⟩ }

/-- The cache state after the C9 miss: only the miss counter moved. -/
def cacheW9m : PathfindingCache :=
  { cacheW9 with
    stats := { cacheW9.stats with
               pathCacheMisses := cacheW9.stats.pathCacheMisses + 1 } }

/-- C9 counterexample request of entity 1: high priority, goal in cell
(2, 1), a cache miss. -/
def reqHigh : PathfindingRequest :=
  { start := (0, 0), goal := (6 / 5, 0), size := 1
    priority := PathfindingPriority.high, requestId := 0 }

/-- C9 counterexample request of entity 2: low priority, start and goal in
cell (1, 1), a cache hit against cacheW9. -/
def reqLow : PathfindingRequest :=
  { start := (0, 0), goal := (0, 0), size := 1
    priority := PathfindingPriority.low, requestId := 0 }

/-- The C9 counterexample request set: the high-priority miss first, the
low-priority hit second. -/
def reqsW9 : List (ℕ × PathfindingRequest) :=
  [(1, reqHigh), (2, reqLow)]

/-- A concrete cache whose single path entry and single passability entry
were stamped at terrain version 5, while the cache is now at version 7. -/
def cacheStale : PathfindingCache :=
  { pathCache := [(⟨(0, 0), (1, 0), quantizeSize 1⟩,
      ⟨some [(0, 0)], 5, 0, [(0, 0)]⟩)]
    passabilityCache := [(⟨0, 0, quantizeSize 1⟩, ⟨true, 5, 0⟩)]
    terrainVersion := 7
    spatialIndex := [((0, 0), [⟨(0, 0), (1, 0), quantizeSize 1⟩])]
    stats := ⟨0, 0, 0, 0, 0, 0⟩ }

/-- A concrete cache for the C8 witness: one cached path whose footprint is
cell (1, 1), registered in the spatial index, plus one passability entry
at that cell, all stamped with the current terrain version 1. -/
def cacheInv : PathfindingCache :=
  { pathCache := [(⟨(1, 1), (1, 1), quantizeSize 1⟩,
      ⟨some [(0, 0)], 1, 0, [(1, 1)]⟩)]
    passabilityCache := [(⟨1, 1, quantizeSize 1⟩, ⟨true, 1, 0⟩)]
    terrainVersion := 1
    spatialIndex := [((1, 1), [⟨(1, 1), (1, 1), quantizeSize 1⟩])]
    stats := ⟨0, 0, 0, 0, 0, 0⟩ }

theorem mem_intRange {lo hi a : ℤ} : a ∈ intRange lo hi ↔ lo ≤ a ∧ a ≤ hi := by
  constructor
  · intro h
    obtain ⟨i, hi2, hEq⟩ := List.mem_map.mp h
    rw [List.mem_range] at hi2
    omega
  · intro h
    apply List.mem_map.mpr
    exact ⟨(a - lo).toNat, List.mem_range.mpr (by omega), by omega⟩

theorem sqrtLt_eq_true_iff {d2 b : ℚ} :
    sqrtLt d2 b = true ↔ Real.sqrt (d2 : ℝ) < (b : ℝ) := by
  simp only [sqrtLt, decide_eq_true_eq]
  constructor
  · rintro ⟨hb, hlt⟩
    have hb2 : (0 : ℝ) < (b : ℝ) := by exact_mod_cast hb
    rw [Real.sqrt_lt' hb2]
    exact_mod_cast hlt
  · intro h
    have hb2 : (0 : ℝ) < (b : ℝ) := lt_of_le_of_lt (Real.sqrt_nonneg _) h
    have hb : (0 : ℚ) < b := by exact_mod_cast hb2
    refine ⟨hb, ?_⟩
    have := (Real.sqrt_lt' hb2).mp h
    exact_mod_cast this

theorem listLookup_cons_eq {α β : Type} [DecidableEq α] (a : α × β) (t : List (α × β))
    (k : α) (h : a.1 = k) : listLookup (a :: t) k = some a.2 := by
  simp [listLookup, List.find?_cons_of_pos, h]

theorem listLookup_cons_ne {α β : Type} [DecidableEq α] (a : α × β) (t : List (α × β))
    (k : α) (h : a.1 ≠ k) : listLookup (a :: t) k = listLookup t k := by
  simp only [listLookup]
  rw [List.find?_cons_of_neg]
  simp [h]

theorem listLookup_filter_eq_none {α β : Type} [DecidableEq α]
    (l : List (α × β)) (p : α × β → Bool) (k : α)
    (h : ∀ v : β, p (k, v) = false) :
    listLookup (l.filter p) k = none := by
  simp only [listLookup, Option.map_eq_none']
  rw [List.find?_eq_none]
  intro x hx
  have hxl := List.of_mem_filter hx
  simp only [decide_eq_true_eq]
  intro hk
  obtain ⟨x1, x2⟩ := x
  cases hk
  rw [h x2] at hxl
  exact Bool.false_ne_true hxl

theorem listLookup_filter_none_of_none {α β : Type} [DecidableEq α]
    (l : List (α × β)) (p : α × β → Bool) (k : α)
    (h : listLookup l k = none) :
    listLookup (l.filter p) k = none := by
  simp only [listLookup, Option.map_eq_none', List.find?_eq_none] at h ⊢
  intro x hx
  exact h x (List.mem_of_mem_filter hx)

theorem listLookup_listErase_self {α β : Type} [DecidableEq α]
    (l : List (α × β)) (k : α) :
    listLookup (listErase l k) k = none := by
  apply listLookup_filter_eq_none
  intro v
  simp

theorem listLookup_listErase_ne {α β : Type} [DecidableEq α]
    (l : List (α × β)) (k k2 : α) (h : k2 ≠ k) :
    listLookup (listErase l k) k2 = listLookup l k2 := by
  induction l with
  | nil => rfl
  | cons a t ih =>
    by_cases ha : a.1 = k
    · rw [listErase, List.filter_cons_of_neg (by simp [ha])]
      rw [listErase] at ih
      rw [ih, listLookup_cons_ne a t k2 (by rw [ha]; exact fun hh => h hh.symm)]
    · rw [listErase, List.filter_cons_of_pos (by simp [ha])]
      by_cases hb : a.1 = k2
      · rw [listLookup_cons_eq a _ k2 hb, listLookup_cons_eq a t k2 hb]
      · rw [listLookup_cons_ne a _ k2 hb, listLookup_cons_ne a t k2 hb]
        rw [listErase] at ih
        exact ih

theorem listLookup_listInsert_self {α β : Type} [DecidableEq α]
    (l : List (α × β)) (k : α) (v : β) :
    listLookup (listInsert l k v) k = some v := by
  rw [listInsert, listLookup_cons_eq _ _ _ rfl]

theorem listLookup_listInsert_ne {α β : Type} [DecidableEq α]
    (l : List (α × β)) (k k2 : α) (v : β) (h : k2 ≠ k) :
    listLookup (listInsert l k v) k2 = listLookup l k2 := by
  rw [listInsert, listLookup_cons_ne _ _ _ (fun hh => h hh.symm)]
  exact listLookup_listErase_ne l k k2 h

theorem listLookup_eq_some_mem {α β : Type} [DecidableEq α]
    {l : List (α × β)} {k : α} {v : β} (h : listLookup l k = some v) :
    (k, v) ∈ l := by
  simp only [listLookup, Option.map_eq_some'] at h
  obtain ⟨p, hp, hv⟩ := h
  have hmem := List.mem_of_find?_eq_some hp
  have hpk := List.find?_some hp
  simp only [decide_eq_true_eq] at hpk
  obtain ⟨p1, p2⟩ := p
  cases hpk
  cases hv
  exact hmem

theorem floor_half_q : ⌊(1 / 2 : ℚ)⌋ = 0 := by
  rw [Int.floor_eq_zero_iff]
  constructor <;> norm_num

/-- C1: for every in-bounds cell (x, y) of the grid, converting the cell to
its world cell-center position with tile_to_world_coords and converting
that position back with world_to_tile_coords yields exactly Some (x, y).
The cell size must be positive, as it is for every map the game builds. -/
theorem tile_world_roundtrip (m : TerrainMap) (x y : ℕ)
    (hx : x < m.width) (hy : y < m.height) (hc : 0 < m.tileSize) :
    m.worldToTileCoords (m.tileToWorldCoords (x : ℤ) (y : ℤ)).1
      (m.tileToWorldCoords (x : ℤ) (y : ℤ)).2 = some ((x : ℤ), (y : ℤ)) := by
  have hc0 : m.tileSize ≠ 0 := ne_of_gt hc
  unfold TerrainMap.worldToTileCoords TerrainMap.tileToWorldCoords
  simp only
  have hxq : (((x : ℤ) : ℚ) * m.tileSize - (m.width : ℚ) * m.tileSize / 2 +
      m.tileSize / 2 + (m.width : ℚ) * m.tileSize / 2) / m.tileSize
      = ((x : ℤ) : ℚ) + 1 / 2 := by
    field_simp
    ring
  have hyq : (((y : ℤ) : ℚ) * m.tileSize - (m.height : ℚ) * m.tileSize / 2 +
      m.tileSize / 2 + (m.height : ℚ) * m.tileSize / 2) / m.tileSize
      = ((y : ℤ) : ℚ) + 1 / 2 := by
    field_simp
    ring
  rw [hxq, hyq, Int.floor_int_add, Int.floor_int_add, floor_half_q]
  have hcx : (0 : ℤ) ≤ (x : ℤ) + 0 := by omega
  have hcx2 : ((x : ℤ) + 0) < (m.width : ℤ) := by omega
  have hcy : (0 : ℤ) ≤ (y : ℤ) + 0 := by omega
  have hcy2 : ((y : ℤ) + 0) < (m.height : ℤ) := by omega
  rw [if_pos ⟨hcx, hcx2, hcy, hcy2⟩]
  simp

/-- Witness for C1 at cell (2, 1) of the concrete 3 by 3 map. -/
theorem tile_world_roundtrip_witness :
    mapW.worldToTileCoords (mapW.tileToWorldCoords 2 1).1
      (mapW.tileToWorldCoords 2 1).2 = some (2, 1) :=
  tile_world_roundtrip mapW 2 1 (by decide) (by decide) (by norm_num [mapW])

theorem rustRound_nonneg {q : ℚ} (h : 0 ≤ q) : 0 ≤ rustRound q := by
  unfold rustRound
  rw [if_pos h]
  exact Int.floor_nonneg.mpr (by linarith)

theorem quantizeSize_one : quantizeSize 1 = 8 := by
  simp only [quantizeSize, quantizeSizeF, F32.mul8, F32.roundAway, rustRound]
  norm_num
  simp only [F32.minNum, F32.castU8]
  norm_num
  rfl

theorem quantizeSize_one01 : quantizeSize (101 / 100) = 8 := by
  simp only [quantizeSize, quantizeSizeF, F32.mul8, F32.roundAway, rustRound]
  norm_num
  simp only [F32.minNum, F32.castU8]
  norm_num
  rfl

theorem quantizeSize_two : quantizeSize 2 = 16 := by
  simp only [quantizeSize, quantizeSizeF, F32.mul8, F32.roundAway, rustRound]
  norm_num
  simp only [F32.minNum, F32.castU8]
  norm_num
  rfl

theorem castU8_val255 : F32.castU8 (F32.val 255) = 255 := by
  simp only [F32.castU8]
  norm_num
  rfl

/-- C5: the quantized radius equals round(radius * 8) clamped to a byte (at
most 255); for identical start and goal cells, radii 1.0 and 1.01 produce
the same cache key, while radii 1.0 and 2.0 produce different cache keys. -/
theorem quantize_size_spec :
    (∀ q : ℚ, 0 ≤ q → quantizeSize q = min (rustRound (q * 8)).toNat 255) ∧
    (∀ s g : ℤ × ℤ,
      (⟨s, g, quantizeSize 1⟩ : PathCacheKey) = ⟨s, g, quantizeSize (101 / 100)⟩) ∧
    (∀ s g : ℤ × ℤ,
      (⟨s, g, quantizeSize 1⟩ : PathCacheKey) ≠ ⟨s, g, quantizeSize 2⟩) := by
  refine ⟨?_, ?_, ?_⟩
  · intro q hq
    have hr : 0 ≤ rustRound (q * 8) := rustRound_nonneg (by positivity)
    simp only [quantizeSize, quantizeSizeF, F32.mul8, F32.roundAway, F32.minNum,
      F32.castU8]
    have hmin : min ((rustRound (q * 8) : ℤ) : ℚ) 255
        = ((min (rustRound (q * 8)) 255 : ℤ) : ℚ) := by
      norm_cast
    rw [hmin]
    have hnn : ¬(((min (rustRound (q * 8)) 255 : ℤ) : ℚ) < 0) := by
      push_neg
      have : (0 : ℤ) ≤ min (rustRound (q * 8)) 255 := le_min hr (by norm_num)
      exact_mod_cast this
    rw [if_neg hnn, Int.floor_intCast]
    omega
  · intro s g
    rw [quantizeSize_one, quantizeSize_one01]
  · intro s g hEq
    have h : quantizeSize 1 ≠ quantizeSize 2 := by
      rw [quantizeSize_one, quantizeSize_two]
      omega
    exact h (congrArg PathCacheKey.sizeTier hEq)

/-- Witness for C5 at radius 1: the quantized value is round(8) clamped. -/
theorem quantize_size_spec_witness :
    quantizeSize 1 = min (rustRound (1 * 8)).toNat 255 :=
  quantize_size_spec.1 1 (by norm_num)

/-- C10 counterexample: quantize_size does not map NaN to 0.  NaN survives
the multiplication and the rounding, but f32::min(NaN, 255.0) returns the
non-NaN operand 255.0, so the saturating cast produces 255, not 0. -/
theorem quantize_nan_not_zero :
    quantizeSizeF F32.nan = 255 ∧ quantizeSizeF F32.nan ≠ 0 := by
  have h : quantizeSizeF F32.nan = 255 := by
    simp only [quantizeSizeF, F32.mul8, F32.roundAway, F32.minNum]
    exact castU8_val255
  exact ⟨h, by rw [h]; omega⟩

/-- C10 (amended): radius quantization is total for every f32 input and
always lands in 0..=255; negative sizes (and negative infinity) quantize
to 0 through the saturating cast, sizes above 31.9 (and positive infinity)
saturate to 255, and NaN quantizes to 255 - not 0 - because
f32::min(NaN, 255.0) returns 255.0 before the cast is reached. -/
theorem quantize_size_total :
    (∀ x : F32, quantizeSizeF x ≤ 255) ∧
    quantizeSizeF F32.nan = 255 ∧
    quantizeSizeF F32.inf = 255 ∧
    quantizeSizeF F32.ninf = 0 ∧
    (∀ q : ℚ, q < 0 → quantizeSizeF (F32.val q) = 0) ∧
    (∀ q : ℚ, 319 / 10 < q → quantizeSizeF (F32.val q) = 255) := by
  have hnan : quantizeSizeF F32.nan = 255 := by
    simp only [quantizeSizeF, F32.mul8, F32.roundAway, F32.minNum]
    exact castU8_val255
  have hinf : quantizeSizeF F32.inf = 255 := by
    simp only [quantizeSizeF, F32.mul8, F32.roundAway, F32.minNum]
    exact castU8_val255
  have hninf : quantizeSizeF F32.ninf = 0 := rfl
  refine ⟨?_, hnan, hinf, hninf, ?_, ?_⟩
  · intro x
    cases x with
    | nan => rw [hnan]
    | inf => rw [hinf]
    | ninf => rw [hninf]; omega
    | val q =>
      simp only [quantizeSizeF, F32.mul8, F32.roundAway, F32.minNum, F32.castU8]
      split
      · omega
      · exact min_le_right _ _
  · intro q hq
    have hr : rustRound (q * 8) ≤ 0 := by
      unfold rustRound
      rw [if_neg (by nlinarith)]
      have : (0 : ℤ) ≤ ⌊-(q * 8) + 1 / 2⌋ := Int.floor_nonneg.mpr (by nlinarith)
      omega
    simp only [quantizeSizeF, F32.mul8, F32.roundAway, F32.minNum, F32.castU8]
    have hmin : min ((rustRound (q * 8) : ℤ) : ℚ) 255
        = ((rustRound (q * 8) : ℤ) : ℚ) := by
      apply min_eq_left
      have : (rustRound (q * 8) : ℤ) ≤ 255 := by omega
      exact_mod_cast this
    rw [hmin]
    by_cases hz : ((rustRound (q * 8) : ℤ) : ℚ) < 0
    · rw [if_pos hz]
    · rw [if_neg hz]
      push_neg at hz
      have h0 : (0 : ℤ) ≤ rustRound (q * 8) := by exact_mod_cast hz
      have hEq : rustRound (q * 8) = 0 := le_antisymm hr h0
      rw [hEq]
      rfl
  · intro q hq
    have hr : (255 : ℤ) ≤ rustRound (q * 8) := by
      unfold rustRound
      rw [if_pos (by nlinarith)]
      apply Int.le_floor.mpr
      push_cast
      nlinarith
    simp only [quantizeSizeF, F32.mul8, F32.roundAway, F32.minNum, F32.castU8]
    have hmin : min ((rustRound (q * 8) : ℤ) : ℚ) 255 = (255 : ℚ) := by
      apply min_eq_right
      exact_mod_cast hr
    rw [hmin]
    norm_num
    rfl

/-- Witness for C10 (amended): a negative size quantizes to 0 and a size
above the saturation threshold quantizes to 255. -/
theorem quantize_size_total_witness :
    quantizeSizeF (F32.val (-1)) = 0 ∧ quantizeSizeF (F32.val 32) = 255 :=
  ⟨quantize_size_total.2.2.2.2.1 (-1) (by norm_num),
   quantize_size_total.2.2.2.2.2 32 (by norm_num)⟩

/-- C4: size-aware path search returns None without running A* whenever the
start or the goal is outside the grid (world_to_tile_coords returns none)
or is not clearance-passable for the size.  The theorem quantifies over
the A* procedure itself, so the result cannot depend on the search; being
a total Lean function, the embedding also shows no panic occurs. -/
theorem find_path_guards (m : TerrainMap)
    (astarFn : ℤ × ℤ → ℤ × ℤ → Option (List (ℤ × ℤ) × ℕ))
    (startW goalW : ℚ × ℚ) (size : ℚ) (gc : GroundConfigs)
    (h : m.worldToTileCoords startW.1 startW.2 = none ∨
         m.worldToTileCoords goalW.1 goalW.2 = none ∨
         m.isPositionPassableForSize startW.1 startW.2 size gc = false ∨
         m.isPositionPassableForSize goalW.1 goalW.2 size gc = false) :
    m.findPathForSizeInternal astarFn startW goalW size gc = none := by
  unfold TerrainMap.findPathForSizeInternal
  rcases h with h | h | h | h
  · rw [h]
  · cases hs : m.worldToTileCoords startW.1 startW.2 with
    | none => rfl
    | some st => rw [h]
  · cases hs : m.worldToTileCoords startW.1 startW.2 with
    | none => rfl
    | some st =>
      cases hg : m.worldToTileCoords goalW.1 goalW.2 with
      | none => rfl
      | some gt => simp [h]
  · cases hs : m.worldToTileCoords startW.1 startW.2 with
    | none => rfl
    | some st =>
      cases hg : m.worldToTileCoords goalW.1 goalW.2 with
      | none => rfl
      | some gt => simp [h]

/-- Witness for C4: an out-of-bounds start position yields None even when
the abstracted A* would have answered with a path. -/
theorem find_path_guards_witness :
    mapW.findPathForSizeInternal (fun _ _ => some ([(0, 0)], 0))
      (10, 10) (0, 0) 1 gcW = none :=
  find_path_guards mapW _ (10, 10) (0, 0) 1 gcW
    (Or.inl (by norm_num [TerrainMap.worldToTileCoords, mapW]))

theorem numSamplesFor_pos (m : TerrainMap) (d2 size : ℚ) :
    1 ≤ m.numSamplesFor d2 size := by
  simp only [TerrainMap.numSamplesFor]
  split <;> split <;> omega

theorem numSamplesFor_le_50 (m : TerrainMap) (d2 size : ℚ) :
    m.numSamplesFor d2 size ≤ 50 := by
  simp only [TerrainMap.numSamplesFor]
  split <;> split <;> omega

/-- C3: the nominal sampling interval of segment clearance never exceeds
max(radius * 0.5, 0.25 * cell_size); at most 50 sampling intervals (51
sample points) are used; the destination is always among the samples; and
the check returns true exactly when every sampled point passes the
per-point clearance check. -/
theorem segment_clear_spec (m : TerrainMap) (fromW toW : ℚ × ℚ) (size : ℚ)
    (gc : GroundConfigs) :
    m.sampleInterval size
      ≤ max (size * (m.tileSize / 2) * (1 / 2)) (m.tileSize * (1 / 4)) ∧
    (m.segmentSamples fromW toW size).length ≤ 51 ∧
    toW ∈ m.segmentSamples fromW toW size ∧
    (m.isPathSegmentClear fromW toW size gc = true ↔
      ∀ p ∈ m.segmentSamples fromW toW size,
        m.isPositionPassableForSize p.1 p.2 size gc = true) := by
  refine ⟨?_, ?_, ?_, ?_⟩
  · simp only [TerrainMap.sampleInterval]
    split
    · exact le_max_right _ _
    · exact le_max_left _ _
  · simp only [TerrainMap.segmentSamples]
    split
    · simp
    · rw [List.length_map, List.length_range]
      have := numSamplesFor_le_50 m
        ((toW.1 - fromW.1) ^ 2 + (toW.2 - fromW.2) ^ 2) size
      omega
  · simp only [TerrainMap.segmentSamples]
    split
    · simp
    · have hn := numSamplesFor_pos m
        ((toW.1 - fromW.1) ^ 2 + (toW.2 - fromW.2) ^ 2) size
      set n := m.numSamplesFor ((toW.1 - fromW.1) ^ 2 + (toW.2 - fromW.2) ^ 2) size
        with hn_def
      apply List.mem_map.mpr
      refine ⟨n, List.mem_range.mpr (Nat.lt_succ_self n), ?_⟩
      have hne : n ≠ 0 := by omega
      rw [if_neg hne]
      have hq : ((n : ℚ) / (n : ℚ)) = 1 := by
        apply div_self
        exact_mod_cast hne
      rw [hq, Prod.ext_iff]
      constructor
      · show fromW.1 + (toW.1 - fromW.1) * 1 = toW.1
        ring
      · show fromW.2 + (toW.2 - fromW.2) * 1 = toW.2
        ring
  · unfold TerrainMap.isPathSegmentClear
    rw [List.all_eq_true]

theorem cellBlocksAt_eq_true_iff (m : TerrainMap) (worldX worldY size : ℚ)
    (tileX tileY : ℤ) :
    m.cellBlocksAt worldX worldY size tileX tileY = true ↔
    Real.sqrt (((min (max worldX ((m.tileToWorldCoords tileX tileY).1 - m.tileSize / 2))
          ((m.tileToWorldCoords tileX tileY).1 + m.tileSize / 2) - worldX) ^ 2 +
        (min (max worldY ((m.tileToWorldCoords tileX tileY).2 - m.tileSize / 2))
          ((m.tileToWorldCoords tileX tileY).2 + m.tileSize / 2) - worldY) ^ 2 : ℚ) : ℝ)
      < ((size * (m.tileSize / 2) - m.tileSize * (1 / 4) : ℚ) : ℝ) := by
  simp only [TerrainMap.cellBlocksAt]
  exact sqrtLt_eq_true_iff

theorem isPositionPassableForSize_iff (m : TerrainMap) (gc : GroundConfigs)
    (wx wy size : ℚ) :
    m.isPositionPassableForSize wx wy size gc = true ↔
    ∃ ct : ℤ × ℤ, m.worldToTileCoords wx wy = some ct ∧
      m.isTilePassable gc ct.1 ct.2 = true ∧
      ∀ dx dy : ℤ, |dx| ≤ ⌈size * (m.tileSize / 2) / m.tileSize⌉ →
        |dy| ≤ ⌈size * (m.tileSize / 2) / m.tileSize⌉ →
        m.isTilePassable gc (ct.1 + dx) (ct.2 + dy) = false →
        m.cellBlocksAt wx wy size (ct.1 + dx) (ct.2 + dy) = false := by
  simp only [TerrainMap.isPositionPassableForSize]
  cases h : m.worldToTileCoords wx wy with
  | none => simp
  | some ct =>
    simp only [Option.some.injEq]
    rw [exists_eq_left']
    by_cases hp : m.isTilePassable gc ct.1 ct.2
    · rw [hp]
      simp only [Bool.not_true, Bool.false_eq_true, if_false, true_and]
      rw [List.all_eq_true]
      constructor
      · intro hAll dx dy hdx hdy hImp
        have hdx2 := abs_le.mp hdx
        have hdy2 := abs_le.mp hdy
        have hmx : dx ∈ intRange (-⌈size * (m.tileSize / 2) / m.tileSize⌉)
            ⌈size * (m.tileSize / 2) / m.tileSize⌉ :=
          mem_intRange.mpr ⟨by omega, by omega⟩
        have hInner := hAll dx hmx
        rw [List.all_eq_true] at hInner
        have hmy : dy ∈ intRange (-⌈size * (m.tileSize / 2) / m.tileSize⌉)
            ⌈size * (m.tileSize / 2) / m.tileSize⌉ :=
          mem_intRange.mpr ⟨by omega, by omega⟩
        have hBody := hInner dy hmy
        rw [hImp] at hBody
        simp only [Bool.false_eq_true, if_false, Bool.not_eq_true'] at hBody
        exact hBody
      · intro hAll dx hmx
        rw [List.all_eq_true]
        intro dy hmy
        have hdx2 := mem_intRange.mp hmx
        have hdy2 := mem_intRange.mp hmy
        by_cases hq : m.isTilePassable gc (ct.1 + dx) (ct.2 + dy)
        · rw [hq]
          simp
        · have hq2 : m.isTilePassable gc (ct.1 + dx) (ct.2 + dy) = false :=
            Bool.not_eq_true _ ▸ (by simpa using hq)
          have := hAll dx dy (abs_le.mpr ⟨by omega, by omega⟩)
            (abs_le.mpr ⟨by omega, by omega⟩) hq2
          rw [hq2]
          simp only [Bool.false_eq_true, if_false, Bool.not_eq_true']
          exact this
    · have hp2 : m.isTilePassable gc ct.1 ct.2 = false := by simpa using hp
      rw [hp2]
      simp

/-- C2: clearance returns true exactly when the cell containing the query
point is passable and no impassable cell within ceil(radius / cell_size)
cells (Chebyshev) of it has its closest square-footprint point at
Euclidean distance less than radius minus the quarter-cell tolerance from
the query point (radius = size * cell_size / 2); for size 0 this
degenerates to the point check that the occupied cell is passable. -/
theorem clearance_check_spec (m : TerrainMap) (gc : GroundConfigs)
    (wx wy size : ℚ) :
    (m.isPositionPassableForSize wx wy size gc = true ↔
      ∃ ct : ℤ × ℤ, m.worldToTileCoords wx wy = some ct ∧
        m.isTilePassable gc ct.1 ct.2 = true ∧
        ∀ dx dy : ℤ, |dx| ≤ ⌈size * (m.tileSize / 2) / m.tileSize⌉ →
          |dy| ≤ ⌈size * (m.tileSize / 2) / m.tileSize⌉ →
          m.isTilePassable gc (ct.1 + dx) (ct.2 + dy) = false →
          ¬ Real.sqrt (((min (max wx
                  ((m.tileToWorldCoords (ct.1 + dx) (ct.2 + dy)).1 - m.tileSize / 2))
                ((m.tileToWorldCoords (ct.1 + dx) (ct.2 + dy)).1 + m.tileSize / 2) - wx) ^ 2 +
              (min (max wy
                  ((m.tileToWorldCoords (ct.1 + dx) (ct.2 + dy)).2 - m.tileSize / 2))
                ((m.tileToWorldCoords (ct.1 + dx) (ct.2 + dy)).2 + m.tileSize / 2) - wy) ^ 2
              : ℚ) : ℝ)
            < ((size * (m.tileSize / 2) - m.tileSize * (1 / 4) : ℚ) : ℝ)) ∧
    (size = 0 → (m.isPositionPassableForSize wx wy 0 gc = true ↔
      ∃ ct : ℤ × ℤ, m.worldToTileCoords wx wy = some ct ∧
        m.isTilePassable gc ct.1 ct.2 = true)) := by
  constructor
  · rw [isPositionPassableForSize_iff]
    apply exists_congr
    intro ct
    apply and_congr_right
    intro _
    apply and_congr_right
    intro _
    apply forall_congr'
    intro dx
    apply forall_congr'
    intro dy
    apply imp_congr_right
    intro _
    apply imp_congr_right
    intro _
    apply imp_congr_right
    intro _
    rw [← cellBlocksAt_eq_true_iff]
    constructor
    · intro h1 h2
      rw [h1] at h2
      exact Bool.false_ne_true h2
    · intro h1
      exact Bool.not_eq_true _ ▸ (by simpa using h1)
  · intro hsz
    rw [isPositionPassableForSize_iff]
    constructor
    · rintro ⟨ct, h1, h2, _⟩
      exact ⟨ct, h1, h2⟩
    · rintro ⟨ct, h1, h2⟩
      refine ⟨ct, h1, h2, ?_⟩
      intro dx dy hdx hdy hfalse
      have hR : ⌈(0 : ℚ) * (m.tileSize / 2) / m.tileSize⌉ = 0 := by
        norm_num
      rw [hR] at hdx hdy
      have hdx2 := abs_le.mp hdx
      have hdy2 := abs_le.mp hdy
      have hx0 : dx = 0 := by omega
      have hy0 : dy = 0 := by omega
      rw [hx0, hy0, add_zero, add_zero, h2] at hfalse
      exact absurd hfalse (by simp)

theorem cachePath_pathCache (c : PathfindingCache) (start goal : ℤ × ℤ)
    (size : ℚ) (p : Option (List (ℚ × ℚ))) (m : TerrainMap) (now : ℕ) :
    (c.cachePath start goal size p m now).pathCache
      = listInsert c.pathCache ⟨start, goal, quantizeSize size⟩
          { path := p
            terrainVersion := c.terrainVersion
            lastAccessed := now
            affectedTiles :=
              match p with
              | some pathPoints => m.getAffectedTiles pathPoints size
              | none => [] } := rfl

theorem cachePath_terrainVersion (c : PathfindingCache) (start goal : ℤ × ℤ)
    (size : ℚ) (p : Option (List (ℚ × ℚ))) (m : TerrainMap) (now : ℕ) :
    (c.cachePath start goal size p m now).terrainVersion = c.terrainVersion := rfl

theorem cachePath_stats_hits (c : PathfindingCache) (start goal : ℤ × ℤ)
    (size : ℚ) (p : Option (List (ℚ × ℚ))) (m : TerrainMap) (now : ℕ) :
    (c.cachePath start goal size p m now).stats.pathCacheHits
      = c.stats.pathCacheHits := rfl

/-- C6: with no entry for the key, get_path misses (returns None); after
cache_path stores a result p for the key, with no intervening terrain
invalidation, an immediately repeated get_path with the same start, goal
and size is a hit: it returns Some p - identical to the stored result,
including when p itself is None, a cached no-path answer - and increments
the hit counter. -/
theorem cache_roundtrip (c : PathfindingCache) (start goal : ℤ × ℤ)
    (size : ℚ) (p : Option (List (ℚ × ℚ))) (m : TerrainMap) (now now2 : ℕ) :
    (listLookup c.pathCache ⟨start, goal, quantizeSize size⟩ = none →
      (c.getPath start goal size now).1 = none) ∧
    ((c.cachePath start goal size p m now).getPath start goal size now2).1
      = some p ∧
    ((c.cachePath start goal size p m now).getPath start goal size now2).2.stats.pathCacheHits
      = (c.cachePath start goal size p m now).stats.pathCacheHits + 1 := by
  refine ⟨?_, ?_⟩
  · intro h
    simp only [PathfindingCache.getPath]
    rw [h]
  · have hkey := listLookup_listInsert_self c.pathCache
      (⟨start, goal, quantizeSize size⟩ : PathCacheKey)
      { path := p
        terrainVersion := c.terrainVersion
        lastAccessed := now
        affectedTiles :=
          match p with
          | some pathPoints => m.getAffectedTiles pathPoints size
          | none => [] }
    constructor
    · simp only [PathfindingCache.getPath, cachePath_pathCache,
        cachePath_terrainVersion]
      rw [hkey]
      dsimp only
      rw [if_pos rfl]
    · simp only [PathfindingCache.getPath, cachePath_pathCache,
        cachePath_terrainVersion]
      rw [hkey]
      dsimp only
      rw [if_pos rfl]

/-- Witness for C6 on the empty cache with a cached no-path result: the
first lookup misses, and after caching None the repeat lookup is a hit
returning Some None. -/
theorem cache_roundtrip_witness :
    (PathfindingCache.new.getPath (1, 1) (2, 2) 1 0).1 = none ∧
    ((PathfindingCache.new.cachePath (1, 1) (2, 2) 1 none mapW 0).getPath
      (1, 1) (2, 2) 1 1).1 = some none :=
  ⟨(cache_roundtrip PathfindingCache.new (1, 1) (2, 2) 1 none mapW 0 1).1 rfl,
   (cache_roundtrip PathfindingCache.new (1, 1) (2, 2) 1 none mapW 0 1).2.1⟩

theorem removeKeyFromIndexAt_not_mem_self (idx : List ((ℕ × ℕ) × List PathCacheKey))
    (key : PathCacheKey) (t : ℕ × ℕ) :
    key ∉ ((listLookup (removeKeyFromIndexAt idx key t) t).getD []) := by
  unfold removeKeyFromIndexAt
  cases h : listLookup idx t with
  | none =>
    dsimp only
    simp [h]
  | some keys =>
    dsimp only
    split
    · rw [listLookup_listErase_self]
      simp
    · rw [listLookup_listInsert_self]
      intro hmem
      have := List.of_mem_filter hmem
      simp at this

theorem removeKeyFromIndexAt_not_mem_preserve
    (idx : List ((ℕ × ℕ) × List PathCacheKey)) (key : PathCacheKey) (t t2 : ℕ × ℕ)
    (h : key ∉ ((listLookup idx t2).getD [])) :
    key ∉ ((listLookup (removeKeyFromIndexAt idx key t) t2).getD []) := by
  unfold removeKeyFromIndexAt
  cases hl : listLookup idx t with
  | none =>
    dsimp only
    exact h
  | some keys =>
    dsimp only
    by_cases ht : t2 = t
    · subst ht
      split
      · rw [listLookup_listErase_self]
        simp
      · rw [listLookup_listInsert_self]
        intro hmem
        have := List.of_mem_filter hmem
        simp at this
    · split
      · rw [listLookup_listErase_ne _ _ _ ht]
        exact h
      · rw [listLookup_listInsert_ne _ _ _ _ ht]
        exact h

theorem cleanupSpatialIndex_not_mem_preserve
    (tiles : List (ℕ × ℕ)) (idx : List ((ℕ × ℕ) × List PathCacheKey))
    (key : PathCacheKey) (t : ℕ × ℕ)
    (h : key ∉ ((listLookup idx t).getD [])) :
    key ∉ ((listLookup (cleanupSpatialIndex idx key tiles) t).getD []) := by
  induction tiles generalizing idx with
  | nil => exact h
  | cons a rest ih =>
    exact ih _ (removeKeyFromIndexAt_not_mem_preserve idx key a t h)

theorem cleanupSpatialIndex_not_mem (tiles : List (ℕ × ℕ))
    (idx : List ((ℕ × ℕ) × List PathCacheKey)) (key : PathCacheKey) (t : ℕ × ℕ)
    (ht : t ∈ tiles) :
    key ∉ ((listLookup (cleanupSpatialIndex idx key tiles) t).getD []) := by
  induction tiles generalizing idx with
  | nil => cases ht
  | cons a rest ih =>
    rcases List.mem_cons.mp ht with rfl | hmem
    · exact cleanupSpatialIndex_not_mem_preserve rest _ key t
        (removeKeyFromIndexAt_not_mem_self idx key t)
    · exact ih _ hmem

/-- C7: get_path and get_passability return a stored result only when the
entry's recorded terrain version equals the current one.  A version
mismatch reports a plain miss (None), removes the stale entry - for path
entries also scrubbing its footprint references from the spatial index -
and bumps the miss counter; a hit returns the stored result, refreshes the
entry's last-access time, and bumps the hit counter. -/
theorem version_discipline (c : PathfindingCache) (start goal : ℤ × ℤ)
    (tileX tileY : ℤ) (size : ℚ) (now : ℕ) :
    (∀ cached : CachedPathResult,
      listLookup c.pathCache ⟨start, goal, quantizeSize size⟩ = some cached →
      cached.terrainVersion ≠ c.terrainVersion →
      (c.getPath start goal size now).1 = none ∧
      listLookup (c.getPath start goal size now).2.pathCache
        ⟨start, goal, quantizeSize size⟩ = none ∧
      (∀ t ∈ cached.affectedTiles,
        (⟨start, goal, quantizeSize size⟩ : PathCacheKey)
          ∉ ((listLookup (c.getPath start goal size now).2.spatialIndex t).getD [])) ∧
      (c.getPath start goal size now).2.stats.pathCacheMisses
        = c.stats.pathCacheMisses + 1) ∧
    (∀ cached : CachedPathResult,
      listLookup c.pathCache ⟨start, goal, quantizeSize size⟩ = some cached →
      cached.terrainVersion = c.terrainVersion →
      (c.getPath start goal size now).1 = some cached.path ∧
      listLookup (c.getPath start goal size now).2.pathCache
        ⟨start, goal, quantizeSize size⟩
        = some { cached with lastAccessed := now } ∧
      (c.getPath start goal size now).2.stats.pathCacheHits
        = c.stats.pathCacheHits + 1) ∧
    (∀ cached : CachedPassability,
      listLookup c.passabilityCache ⟨tileX, tileY, quantizeSize size⟩ = some cached →
      cached.terrainVersion ≠ c.terrainVersion →
      (c.getPassability tileX tileY size now).1 = none ∧
      listLookup (c.getPassability tileX tileY size now).2.passabilityCache
        ⟨tileX, tileY, quantizeSize size⟩ = none ∧
      (c.getPassability tileX tileY size now).2.stats.passabilityCacheMisses
        = c.stats.passabilityCacheMisses + 1) ∧
    (∀ cached : CachedPassability,
      listLookup c.passabilityCache ⟨tileX, tileY, quantizeSize size⟩ = some cached →
      cached.terrainVersion = c.terrainVersion →
      (c.getPassability tileX tileY size now).1 = some cached.isPassable ∧
      listLookup (c.getPassability tileX tileY size now).2.passabilityCache
        ⟨tileX, tileY, quantizeSize size⟩
        = some { cached with lastAccessed := now } ∧
      (c.getPassability tileX tileY size now).2.stats.passabilityCacheHits
        = c.stats.passabilityCacheHits + 1) := by
  refine ⟨?_, ?_, ?_, ?_⟩
  · intro cached hl hv
    simp only [PathfindingCache.getPath]
    rw [hl]
    dsimp only
    rw [if_neg hv]
    refine ⟨rfl, ?_, ?_, rfl⟩
    · exact listLookup_listErase_self _ _
    · intro t ht
      exact cleanupSpatialIndex_not_mem _ _ _ _ ht
  · intro cached hl hv
    simp only [PathfindingCache.getPath]
    rw [hl]
    dsimp only
    rw [if_pos hv]
    exact ⟨rfl, listLookup_listInsert_self _ _ _, rfl⟩
  · intro cached hl hv
    simp only [PathfindingCache.getPassability]
    rw [hl]
    dsimp only
    rw [if_neg hv]
    exact ⟨rfl, listLookup_listErase_self _ _, rfl⟩
  · intro cached hl hv
    simp only [PathfindingCache.getPassability]
    rw [hl]
    dsimp only
    rw [if_pos hv]
    exact ⟨rfl, listLookup_listInsert_self _ _ _, rfl⟩

/-- Witness for C7 on cacheStale: both stale entries read as misses, the
stale path entry is gone afterwards, and its spatial-index reference is
scrubbed. -/
theorem version_discipline_witness :
    (cacheStale.getPath (0, 0) (1, 0) 1 9).1 = none ∧
    listLookup (cacheStale.getPath (0, 0) (1, 0) 1 9).2.pathCache
      ⟨(0, 0), (1, 0), quantizeSize 1⟩ = none ∧
    ((⟨(0, 0), (1, 0), quantizeSize 1⟩ : PathCacheKey)
      ∉ ((listLookup (cacheStale.getPath (0, 0) (1, 0) 1 9).2.spatialIndex
          (0, 0)).getD [])) ∧
    (cacheStale.getPassability 0 0 1 9).1 = none := by
  have h := version_discipline cacheStale (0, 0) (1, 0) 0 0 1 9
  have h1 := h.1 ⟨some [(0, 0)], 5, 0, [(0, 0)]⟩
    (listLookup_cons_eq _ _ _ rfl) (by decide)
  have h3 := h.2.2.1 ⟨true, 5, 0⟩
    (listLookup_cons_eq _ _ _ rfl) (by decide)
  exact ⟨h1.1, h1.2.1, h1.2.2.1 (0, 0) (by simp), h3.1⟩

theorem purgePassabilityAround_lookup_none
    (pc : List (PassabilityCacheKey × CachedPassability)) (cx cy : ℤ)
    (k : PassabilityCacheKey) (hx : |k.tileX - cx| ≤ 3) (hy : |k.tileY - cy| ≤ 3) :
    listLookup (purgePassabilityAround pc cx cy) k = none := by
  apply listLookup_filter_eq_none
  intro v
  have h1 : decide (3 < |k.tileX - cx|) = false := by
    simp only [decide_eq_false_iff_not, not_lt]
    exact hx
  have h2 : decide (3 < |k.tileY - cy|) = false := by
    simp only [decide_eq_false_iff_not, not_lt]
    exact hy
  rw [h1, h2]
  rfl

theorem purgeFold_none_preserve (changes : List (ℕ × ℕ × ℕ))
    (pc : List (PassabilityCacheKey × CachedPassability)) (k : PassabilityCacheKey)
    (h : listLookup pc k = none) :
    listLookup
      (changes.foldl (fun pc ch => purgePassabilityAround pc (ch.1 : ℤ) (ch.2.1 : ℤ)) pc)
      k = none := by
  induction changes generalizing pc with
  | nil => exact h
  | cons a rest ih =>
    exact ih _ (listLookup_filter_none_of_none _ _ _ h)

theorem purgeFold_killed (changes : List (ℕ × ℕ × ℕ))
    (pc : List (PassabilityCacheKey × CachedPassability)) (k : PassabilityCacheKey)
    (x y t : ℕ) (hmem : (x, y, t) ∈ changes)
    (hx : |k.tileX - (x : ℤ)| ≤ 3) (hy : |k.tileY - (y : ℤ)| ≤ 3) :
    listLookup
      (changes.foldl (fun pc ch => purgePassabilityAround pc (ch.1 : ℤ) (ch.2.1 : ℤ)) pc)
      k = none := by
  induction changes generalizing pc with
  | nil => cases hmem
  | cons a rest ih =>
    simp only [List.foldl_cons]
    rcases List.mem_cons.mp hmem with h | h
    · subst h
      exact purgeFold_none_preserve rest _ k
        (purgePassabilityAround_lookup_none pc _ _ k hx hy)
    · exact ih _ h

theorem mem_setInsert_self {α : Type} [DecidableEq α] (l : List α) (a : α) :
    a ∈ setInsert l a := by
  unfold setInsert
  split
  · assumption
  · exact List.mem_cons_self a l

theorem mem_setInsert_of_mem {α : Type} [DecidableEq α] (l : List α) (a b : α)
    (h : b ∈ l) : b ∈ setInsert l a := by
  unfold setInsert
  split
  · exact h
  · exact List.mem_cons_of_mem a h

theorem mem_foldl_setInsert_of_mem_init {α : Type} [DecidableEq α]
    (xs : List α) (init : List α) (a : α) (h : a ∈ init) :
    a ∈ xs.foldl setInsert init := by
  induction xs generalizing init with
  | nil => exact h
  | cons b rest ih =>
    simp only [List.foldl_cons]
    exact ih _ (mem_setInsert_of_mem _ _ _ h)

theorem mem_foldl_setInsert_of_mem {α : Type} [DecidableEq α]
    (xs : List α) (init : List α) (a : α) (h : a ∈ xs) :
    a ∈ xs.foldl setInsert init := by
  induction xs generalizing init with
  | nil => cases h
  | cons b rest ih =>
    simp only [List.foldl_cons]
    rcases List.mem_cons.mp h with rfl | hmem
    · exact mem_foldl_setInsert_of_mem_init rest _ a (mem_setInsert_self init a)
    · exact ih _ hmem

theorem mem_collectKeysToRemove_aux (idx : List ((ℕ × ℕ) × List PathCacheKey))
    (k : PathCacheKey) (changes : List (ℕ × ℕ × ℕ)) (init : List PathCacheKey)
    (h : k ∈ init ∨ ∃ x y t : ℕ, (x, y, t) ∈ changes ∧
      k ∈ ((listLookup idx (x, y)).getD [])) :
    k ∈ changes.foldl
      (fun ks ch => ((listLookup idx (ch.1, ch.2.1)).getD []).foldl setInsert ks)
      init := by
  induction changes generalizing init with
  | nil =>
    rcases h with h | ⟨x, y, t, hmem, _⟩
    · exact h
    · cases hmem
  | cons a rest ih =>
    simp only [List.foldl_cons]
    apply ih
    rcases h with h | ⟨x, y, t, hmem, hk⟩
    · exact Or.inl (mem_foldl_setInsert_of_mem_init _ _ _ h)
    · rcases List.mem_cons.mp hmem with rfl | hmem2
      · exact Or.inl (mem_foldl_setInsert_of_mem _ _ _ hk)
      · exact Or.inr ⟨x, y, t, hmem2, hk⟩

theorem mem_collectKeysToRemove (idx : List ((ℕ × ℕ) × List PathCacheKey))
    (changes : List (ℕ × ℕ × ℕ)) (k : PathCacheKey) (x y t : ℕ)
    (hch : (x, y, t) ∈ changes) (hk : k ∈ ((listLookup idx (x, y)).getD [])) :
    k ∈ collectKeysToRemove idx changes :=
  mem_collectKeysToRemove_aux idx k changes [] (Or.inr ⟨x, y, t, hch, hk⟩)

theorem removePathKeys_none_preserve (ks : List PathCacheKey)
    (st : List (PathCacheKey × CachedPathResult) × List ((ℕ × ℕ) × List PathCacheKey))
    (k : PathCacheKey) (h : listLookup st.1 k = none) :
    listLookup (removePathKeys st ks).1 k = none := by
  unfold removePathKeys
  induction ks generalizing st with
  | nil => exact h
  | cons a rest ih =>
    simp only [List.foldl_cons]
    apply ih
    cases hl : listLookup st.1 a with
    | none =>
      dsimp only
      exact h
    | some cached =>
      dsimp only
      exact listLookup_filter_none_of_none _ _ _ h

theorem removePathKeys_killed (ks : List PathCacheKey)
    (st : List (PathCacheKey × CachedPathResult) × List ((ℕ × ℕ) × List PathCacheKey))
    (k : PathCacheKey) (hk : k ∈ ks) :
    listLookup (removePathKeys st ks).1 k = none := by
  induction ks generalizing st with
  | nil => cases hk
  | cons a rest ih =>
    rcases List.mem_cons.mp hk with rfl | hmem
    · have hstep : listLookup
          (match listLookup st.1 k with
           | some cached =>
             (listErase st.1 k, cleanupSpatialIndex st.2 k cached.affectedTiles)
           | none => st).1 k = none := by
        cases hl : listLookup st.1 k with
        | none =>
          dsimp only
          exact hl
        | some cached =>
          dsimp only
          exact listLookup_listErase_self _ _
      exact removePathKeys_none_preserve rest _ k hstep
    · exact ih _ hmem

/-- C8: invalidation with an empty change set leaves the cache entirely
unchanged; a non-empty batch increments the terrain version exactly once,
removes every path entry the spatial index registers at a changed
footprint cell (so the next lookup - and get_path call - for that key
misses), and purges every passability entry for a cell within 3 cells of
a changed cell on both axes.  The spatial-index hypothesis of the removal
conjunct is the registration invariant cache_path establishes when it
records the entry's footprint. -/
theorem invalidation_spec :
    (∀ c : PathfindingCache, c.invalidateFromTerrainChanges ⟨[]⟩ = c) ∧
    (∀ (c : PathfindingCache) (tc : TerrainChanges), tc.changedTiles ≠ [] →
      (c.invalidateFromTerrainChanges tc).terrainVersion = c.terrainVersion + 1) ∧
    (∀ (c : PathfindingCache) (tc : TerrainChanges) (start goal : ℤ × ℤ)
       (size : ℚ) (cached : CachedPathResult) (x y t now : ℕ),
      listLookup c.pathCache ⟨start, goal, quantizeSize size⟩ = some cached →
      (x, y, t) ∈ tc.changedTiles →
      (x, y) ∈ cached.affectedTiles →
      (⟨start, goal, quantizeSize size⟩ : PathCacheKey)
        ∈ ((listLookup c.spatialIndex (x, y)).getD []) →
      listLookup (c.invalidateFromTerrainChanges tc).pathCache
        ⟨start, goal, quantizeSize size⟩ = none ∧
      ((c.invalidateFromTerrainChanges tc).getPath start goal size now).1 = none) ∧
    (∀ (c : PathfindingCache) (tc : TerrainChanges) (k : PassabilityCacheKey)
       (x y t : ℕ),
      (x, y, t) ∈ tc.changedTiles →
      |k.tileX - (x : ℤ)| ≤ 3 → |k.tileY - (y : ℤ)| ≤ 3 →
      listLookup (c.invalidateFromTerrainChanges tc).passabilityCache k = none) := by
  refine ⟨?_, ?_, ?_, ?_⟩
  · intro c
    rfl
  · intro c tc h
    simp only [PathfindingCache.invalidateFromTerrainChanges]
    rw [if_neg (by simpa using h)]
  · intro c tc start goal size cached x y t now hl hch hfoot hidx
    have hne : tc.changedTiles ≠ [] := List.ne_nil_of_mem hch
    have hkill : listLookup
        (c.invalidateFromTerrainChanges tc).pathCache
        ⟨start, goal, quantizeSize size⟩ = none := by
      simp only [PathfindingCache.invalidateFromTerrainChanges]
      rw [if_neg (by simpa using hne)]
      exact removePathKeys_killed _ _ _
        (mem_collectKeysToRemove c.spatialIndex tc.changedTiles _ x y t hch hidx)
    refine ⟨hkill, ?_⟩
    simp only [PathfindingCache.getPath]
    rw [hkill]
  · intro c tc k x y t hch hx hy
    have hne : tc.changedTiles ≠ [] := List.ne_nil_of_mem hch
    simp only [PathfindingCache.invalidateFromTerrainChanges]
    rw [if_neg (by simpa using hne)]
    exact purgeFold_killed tc.changedTiles c.passabilityCache k x y t hch hx hy

/-- Witness for C8: editing cell (1, 1) bumps the version to exactly 2,
evicts the cached path whose footprint touches it, and purges the nearby
passability entry. -/
theorem invalidation_spec_witness :
    (cacheInv.invalidateFromTerrainChanges ⟨[(1, 1, 5)]⟩).terrainVersion
      = cacheInv.terrainVersion + 1 ∧
    listLookup (cacheInv.invalidateFromTerrainChanges ⟨[(1, 1, 5)]⟩).pathCache
      ⟨(1, 1), (1, 1), quantizeSize 1⟩ = none ∧
    listLookup (cacheInv.invalidateFromTerrainChanges ⟨[(1, 1, 5)]⟩).passabilityCache
      ⟨1, 1, quantizeSize 1⟩ = none := by
  have h2 := invalidation_spec.2.1 cacheInv ⟨[(1, 1, 5)]⟩ (by simp)
  have h3 := invalidation_spec.2.2.1 cacheInv ⟨[(1, 1, 5)]⟩ (1, 1) (1, 1) 1
    ⟨some [(0, 0)], 1, 0, [(1, 1)]⟩ 1 1 5 0
    (listLookup_cons_eq _ _ _ rfl) (by simp) (by simp)
    (by rw [show listLookup cacheInv.spatialIndex (1, 1)
          = some [⟨(1, 1), (1, 1), quantizeSize 1⟩]
        from listLookup_cons_eq _ _ _ rfl]
        exact List.mem_singleton.mpr rfl)
  have h4 := invalidation_spec.2.2.2 cacheInv ⟨[(1, 1, 5)]⟩
    ⟨1, 1, quantizeSize 1⟩ 1 1 5 (by simp) (by decide) (by decide)
  exact ⟨h2, h3.1, h4⟩

theorem spawnStep_shape (m : TerrainMap) (now : ℕ)
    (st : List ((ℕ × PathfindingRequest) × SchedAction) × PathfindingCache × ℕ)
    (er : ℕ × PathfindingRequest) :
    ∃ (act : SchedAction) (cache2 : PathfindingCache) (counter2 : ℕ),
      spawnStep m now st er = (st.1 ++ [(er, act)], cache2, counter2) := by
  unfold spawnStep
  cases h1 : m.worldToTileCoords er.2.start.1 er.2.start.2 with
  | none =>
    dsimp only
    exact ⟨_, _, _, rfl⟩
  | some st1 =>
    cases h2 : m.worldToTileCoords er.2.goal.1 er.2.goal.2 with
    | none =>
      dsimp only
      exact ⟨_, _, _, rfl⟩
    | some gt1 =>
      dsimp only
      rcases h3 : st.2.1.getPath st1 gt1 er.2.size now with ⟨res, cache2⟩
      cases res with
      | none =>
        dsimp only
        exact ⟨_, _, _, rfl⟩
      | some cachedPath =>
        dsimp only
        exact ⟨_, _, _, rfl⟩

theorem spawnFold_fst (m : TerrainMap) (now : ℕ)
    (l : List (ℕ × PathfindingRequest)) :
    ∀ (acts : List ((ℕ × PathfindingRequest) × SchedAction))
      (cache : PathfindingCache) (counter : ℕ),
    ((l.foldl (spawnStep m now) (acts, cache, counter)).1).map Prod.fst
      = acts.map Prod.fst ++ l := by
  induction l with
  | nil =>
    intro acts cache counter
    simp
  | cons er rest ih =>
    intro acts cache counter
    simp only [List.foldl_cons]
    obtain ⟨act, cache2, counter2, hstep⟩ :=
      spawnStep_shape m now (acts, cache, counter) er
    rw [hstep, ih]
    simp

/-- C9 (amended): within one scheduler tick the requests are processed in
descending priority order (stably sorted), and each request receives
exactly one action - a hit resolution or a dispatch - at its own position
in that order.  Consequently hit resolutions do NOT all precede
dispatches: a higher-priority miss is dispatched before a lower-priority
hit is resolved, as the counterexample exhibits; the sequence is ordered
by request priority, not by action kind. -/
theorem scheduler_tick_order (m : TerrainMap) (cache : PathfindingCache)
    (counter now : ℕ) (reqs : List (ℕ × PathfindingRequest)) :
    (spawnCachedPathfindingTasks m cache counter now reqs).1.map Prod.fst
      = List.insertionSort reqGE reqs ∧
    List.Sorted reqGE
      ((spawnCachedPathfindingTasks m cache counter now reqs).1.map Prod.fst) ∧
    (spawnCachedPathfindingTasks m cache counter now reqs).1.length
      = reqs.length := by
  have h1 : (spawnCachedPathfindingTasks m cache counter now reqs).1.map Prod.fst
      = List.insertionSort reqGE reqs := by
    unfold spawnCachedPathfindingTasks
    rw [spawnFold_fst]
    simp
  refine ⟨h1, ?_, ?_⟩
  · rw [h1]
    exact List.sorted_insertionSort reqGE reqs
  · have h2 := congrArg List.length h1
    rw [List.length_map] at h2
    rw [h2, List.length_insertionSort]

theorem wtc_origin : mapW.worldToTileCoords 0 0 = some (1, 1) := by
  simp only [TerrainMap.worldToTileCoords, mapW]
  norm_num

theorem wtc_goalHigh : mapW.worldToTileCoords (6 / 5) 0 = some (2, 1) := by
  simp only [TerrainMap.worldToTileCoords, mapW]
  norm_num

theorem sort_reqsW9 : List.insertionSort reqGE reqsW9 = reqsW9 := by
  simp only [reqsW9, List.insertionSort, List.orderedInsert]
  rw [if_pos]
  show reqGE (1, reqHigh) (2, reqLow)
  simp [reqGE, reqHigh, reqLow, PathfindingPriority.rank]

theorem lookup_missW9 :
    listLookup cacheW9.pathCache ⟨(1, 1), (2, 1), quantizeSize 1⟩ = none := by
  have h : (⟨(1, 1), (1, 1), quantizeSize 1⟩ : PathCacheKey)
      ≠ (⟨(1, 1), (2, 1), quantizeSize 1⟩ : PathCacheKey) := by
    intro hk
    have h2 := congrArg Prod.fst (congrArg PathCacheKey.goalTile hk)
    exact absurd h2 (by decide)
  rw [show cacheW9.pathCache
      = [(⟨(1, 1), (1, 1), quantizeSize 1⟩, ⟨some [], 1, 0, []⟩)] from rfl]
  rw [listLookup_cons_ne _ _ _ h]
  rfl

theorem gp_missW9 : cacheW9.getPath (1, 1) (2, 1) 1 5 = (none, cacheW9m) := by
  simp only [PathfindingCache.getPath]
  rw [lookup_missW9]
  rfl

theorem gp_hitW9_lookup :
    listLookup cacheW9m.pathCache ⟨(1, 1), (1, 1), quantizeSize 1⟩
      = some ⟨some [], 1, 0, []⟩ :=
  listLookup_cons_eq _ _ _ rfl

theorem gp_hitW9 : cacheW9m.getPath (1, 1) (1, 1) 1 5
    = (some (some []),
       { cacheW9m with
         pathCache := listInsert cacheW9m.pathCache ⟨(1, 1), (1, 1), quantizeSize 1⟩
           ⟨some [], 1, 5, []⟩
         stats := { cacheW9m.stats with
                    pathCacheHits := cacheW9m.stats.pathCacheHits + 1 } }) := by
  simp only [PathfindingCache.getPath]
  rw [gp_hitW9_lookup]
  dsimp only
  rw [if_pos (show (1 : ℕ) = cacheW9m.terrainVersion from rfl)]

theorem step1W9 :
    spawnStep mapW 5 ([], cacheW9, 0) (1, reqHigh)
      = ([((1, reqHigh), SchedAction.dispatch 1 0)], cacheW9m,
         (nextRequestId 0).2) := by
  unfold spawnStep
  dsimp only [reqHigh]
  rw [wtc_origin, wtc_goalHigh]
  dsimp only
  rw [gp_missW9]
  rfl

theorem step2W9 :
    spawnStep mapW 5
      ([((1, reqHigh), SchedAction.dispatch 1 0)], cacheW9m, (nextRequestId 0).2)
      (2, reqLow)
      = ([((1, reqHigh), SchedAction.dispatch 1 0),
          ((2, reqLow), SchedAction.resolveHit 2 (some []))],
         { cacheW9m with
           pathCache := listInsert cacheW9m.pathCache ⟨(1, 1), (1, 1), quantizeSize 1⟩
             ⟨some [], 1, 5, []⟩
           stats := { cacheW9m.stats with
                      pathCacheHits := cacheW9m.stats.pathCacheHits + 1 } },
         (nextRequestId (nextRequestId 0).2).2) := by
  unfold spawnStep
  dsimp only [reqLow]
  rw [wtc_origin]
  dsimp only
  rw [gp_hitW9]
  rfl

/-- C9 counterexample: on the concrete map with a cache holding the
low-priority request's key, one tick emits the high-priority dispatch
BEFORE the low-priority hit resolution, so the emitted sequence has a
dispatch strictly before a hit resolution, contradicting the claim that
every hit resolution precedes every dispatch. -/
theorem scheduler_hit_after_dispatch :
    ((spawnCachedPathfindingTasks mapW cacheW9 0 5 reqsW9).1.map Prod.snd)
      = [SchedAction.dispatch 1 0, SchedAction.resolveHit 2 (some [])] := by
  unfold spawnCachedPathfindingTasks
  rw [sort_reqsW9]
  simp only [reqsW9, List.foldl_cons, List.foldl_nil]
  rw [step1W9, step2W9]
  rfl

/-- Witness for C2 at size 0 on the concrete map: clearance degenerates to
the point check of the occupied cell. -/
theorem clearance_check_spec_witness :
    mapW.isPositionPassableForSize 0 0 0 gcW = true ↔
      ∃ ct : ℤ × ℤ, mapW.worldToTileCoords 0 0 = some ct ∧
        mapW.isTilePassable gcW ct.1 ct.2 = true :=
  (clearance_check_spec mapW gcW 0 0 0).2 rfl

/-- Witness for C3 on the concrete map: the destination of a sampled
segment is always among the sampled points. -/
theorem segment_clear_spec_witness :
    ((0 : ℚ), (0 : ℚ)) ∈ mapW.segmentSamples (1, 0) (0, 0) 1 :=
  (segment_clear_spec mapW (1, 0) (0, 0) 1 gcW).2.2.1

/-- Witness for the amended C9 ordering theorem on the counterexample tick:
every pending request receives exactly one action. -/
theorem scheduler_tick_order_witness :
    (spawnCachedPathfindingTasks mapW cacheW9 0 5 reqsW9).1.length
      = reqsW9.length :=
  (scheduler_tick_order mapW cacheW9 0 5 reqsW9).2.2
